import Mathlib

/-!
# Shallow embedding of the gomoku-rust engine core

This file embeds, in Lean 4, the parts of the `gomoku` crate
(`src/gomoku/src/…`) that the verified properties talk about:

* `player.rs`   — the `Player` sum type;
* `state.rs`    — the terminal-state enum `State`;
* `board/sequences.rs` — the line index (`make_row`, `make_col`,
  `make_diagonal`, `generate`);
* `board/evaluation.rs` — `shape_score` and the `Eval` monoid;
* `board.rs`    — `Board`, `TilePointer::try_from`, `Board::new`,
  `Board::new_empty`, `evaluate_sequence`, `evaluate`, `evaluate_for`,
  `FromStr` and `Display`;
* `node.rs`     — the `Node` ordering and the per-depth child truncation;
* `lib.rs`      — the exit classification of `minimax_top_level`.

Modelling conventions:

* Rust `usize` arithmetic is modelled by `Nat` (all index computations in
  the sources stay far below `usize::MAX`).
* Scores (`Score = i32`) are modelled by `Int`; the crate's design notes
  state that all evaluation scores fit comfortably in `i32`, so wrap-around
  is not modelled for them.
* `u8` arithmetic whose operands can genuinely overflow or underflow
  (`y - 1` and `x as u8 - b'a'` in `TilePointer::try_from`, `size.pow(2)`
  in `Board::new_empty`) is modelled with an explicit trap: the function
  returns `Option`, and `none` stands for the arithmetic-overflow panic
  that a build with debug assertions raises at that point.
* Fallible Rust functions returning `Result` are modelled with `Except`.
-/

namespace Gomoku

/-- Source: `Score` from `lib.rs`: `type Score = i32`, modelled as `Int`. -/
abbrev Score := Int

/-- Source: `Player` from `player.rs`. -/
inductive Player where
  | X : Player
  | O : Player
deriving DecidableEq, Repr

/-- Source: `impl Not for Player` from `player.rs`. -/
def Player.not : Player → Player
  | .X => .O
  | .O => .X

/-- Source: `Player::char` from `player.rs`. -/
def Player.char : Player → Char
  | .X => 'x'
  | .O => 'o'

/-- Source: `Tile` from `board.rs`: `Option<Player>`, `none` = empty. -/
abbrev Tile := Option Player

/-- Source: `State` from `state.rs`. -/
inductive State where
  | NotEnd : State
  | Win : State
  | Lose : State
  | Draw : State
deriving DecidableEq, Repr

/-- Source: `State::is_end` from `state.rs`. -/
def State.is_end : State → Bool
  | .NotEnd => false
  | _ => true

/-- Source: `State::is_win` from `state.rs`. -/
def State.is_win : State → Bool
  | .Win => true
  | _ => false

/-- Source: `State::is_lose` from `state.rs`. -/
def State.is_lose : State → Bool
  | .Lose => true
  | _ => false

/-- Source: `State::inversed` from `state.rs`. -/
def State.inversed : State → State
  | .NotEnd => .NotEnd
  | .Draw => .Draw
  | .Win => .Lose
  | .Lose => .Win

/-! ## Line index — `board/sequences.rs` -/

/-- Source: `make_row` from `board/sequences.rs`:
`(0..size).map(|x| x + y * size).collect()`. -/
def make_row (size y : Nat) : List Nat :=
  (List.range size).map (fun x => x + y * size)

/-- Source: `make_col` from `board/sequences.rs`:
`(0..size).map(|y| x + y * size).collect()`. -/
def make_col (size x : Nat) : List Nat :=
  (List.range size).map (fun y => x + y * size)

/-- Source: `DiagonalDir` from `board/sequences.rs`. -/
inductive DiagonalDir where
  | LeftToRight : DiagonalDir
  | RightToLeft : DiagonalDir
deriving DecidableEq, Repr

/-- The `step` computed in `make_diagonal`:
`size.checked_add_signed(direction as isize)` with
`LeftToRight = 1`, `RightToLeft = -1`. -/
def DiagonalDir.step (size : Nat) : DiagonalDir → Nat
  | .LeftToRight => size + 1
  | .RightToLeft => size - 1

/-- Source: `make_diagonal` from `board/sequences.rs`. `k` ranges over
`1..2*size`; indexing starts at the respective top corner. -/
def make_diagonal (size k : Nat) (direction : DiagonalDir) : List Nat :=
  let count := if k ≤ size then k else 2 * size - k
  let starting_idx :=
    match direction with
    | .LeftToRight => if k ≤ size then size - k else (k - size) * size
    | .RightToLeft => if k ≤ size then k - 1 else (k - size + 1) * size - 1
  let step := direction.step size
  (List.range count).map (fun i => starting_idx + i * step)

/-- Source: `generate` from `board/sequences.rs`: rows, then columns, then all
right-to-left diagonals for `k = 1..2*size-1`, then all left-to-right
diagonals. -/
def generate (size : Nat) : List (List Nat) :=
  ((List.range size).map (fun y => make_row size y))
    ++ ((List.range size).map (fun x => make_col size x))
    ++ ((List.range (2 * size - 1)).map
          (fun j => make_diagonal size (j + 1) .RightToLeft))
    ++ ((List.range (2 * size - 1)).map
          (fun j => make_diagonal size (j + 1) .LeftToRight))

/-! ## Shape scorer — `board/evaluation.rs` -/

/-- Source: `shape_score` from `board/evaluation.rs`. The `u8` arguments are
modelled by `Nat`; the final wildcard arms of the Rust `match` become
the catch-all branches here. -/
def shape_score (consecutive open_ends : Nat) (has_hole : Bool) :
    Score × Bool :=
  if has_hole then
    if 5 ≤ consecutive then (40000, false)
    else if consecutive = 4 then
      if open_ends = 2 then (20000, false)
      else if open_ends = 1 then (500, false)
      else (0, false)
    else (0, false)
  else
    if 5 ≤ consecutive then (100000000, true)
    else if consecutive = 4 then
      if open_ends = 2 then (10000000, false)
      else if open_ends = 1 then (100000, false)
      else (0, false)
    else if consecutive = 3 then
      if open_ends = 2 then (5000000, false)
      else if open_ends = 1 then (10000, false)
      else (0, false)
    else if consecutive = 2 then
      if open_ends = 2 then (2000, false)
      else (0, false)
    else (0, false)

/-- Source: `EvalScore` from `board/evaluation.rs`: one `Score` per player. -/
structure EvalScore where
  x : Score
  o : Score
deriving DecidableEq, Repr

/-- Source: `Index<Player> for EvalScore`. -/
def EvalScore.get (s : EvalScore) : Player → Score
  | .X => s.x
  | .O => s.o

/-- Source: `IndexMut<Player> for EvalScore`, as a functional update. -/
def EvalScore.set (s : EvalScore) : Player → Score → EvalScore
  | .X, v => { s with x := v }
  | .O, v => { s with o := v }

/-- Source: `Add for EvalScore`. -/
def EvalScore.add (a b : EvalScore) : EvalScore :=
  ⟨a.x + b.x, a.o + b.o⟩

/-- Source: `EvalWin` from `board/evaluation.rs`: one win flag per player. -/
structure EvalWin where
  x : Bool
  o : Bool
deriving DecidableEq, Repr

/-- Source: `Index<Player> for EvalWin`. -/
def EvalWin.get (w : EvalWin) : Player → Bool
  | .X => w.x
  | .O => w.o

/-- Source: `IndexMut<Player> for EvalWin`, as a functional update. -/
def EvalWin.set (w : EvalWin) : Player → Bool → EvalWin
  | .X, v => { w with x := v }
  | .O, v => { w with o := v }

/-- Source: `BitOr for EvalWin`. -/
def EvalWin.or (a b : EvalWin) : EvalWin :=
  ⟨a.x || b.x, a.o || b.o⟩

/-- Source: `Eval` from `board/evaluation.rs`. -/
structure Eval where
  score : EvalScore
  win : EvalWin
deriving DecidableEq, Repr

/-- Source: `Default for Eval` (all fields zero / false). -/
def Eval.default : Eval := ⟨⟨0, 0⟩, ⟨false, false⟩⟩

/-- Source: `Add for Eval`: scores add componentwise, win flags OR componentwise. -/
def Eval.add (a b : Eval) : Eval :=
  ⟨a.score.add b.score, a.win.or b.win⟩

/-- Source: `Sum for Eval`: fold of `Eval.add` starting from the default. -/
def Eval.sum (l : List Eval) : Eval :=
  l.foldl Eval.add Eval.default

/-! ## Board — `board.rs` -/

/-- Source: `TilePointer` from `board.rs`; the `u8` coordinates are modelled
as `Nat`. -/
structure TilePointer where
  x : Nat
  y : Nat
deriving DecidableEq, Repr

/-- Source: `board::Error` from `board.rs` (the enum with `TooSmall` and
`NotSquare`); this is the error type of `Board::new` and `Board::from_str`
and the only error type `minimax_top_level` can return. -/
inductive BoardError where
  | TooSmall : (size : Nat) → BoardError
  | NotSquare : (height line width : Nat) → BoardError
deriving DecidableEq, Repr

/-- Source: `GomokuError` from `error.rs`. The file defines it, but `lib.rs` on
this revision does not include `mod error;` and nothing constructs any of
its variants. -/
inductive GomokuError where
  | NoEmptyTiles : GomokuError
  | GameEnd : GomokuError
  | MisshapedBoard : BoardError → GomokuError
deriving DecidableEq, Repr

/-- Source: `Board` from `board.rs`: the size plus the flat row-major tile data. -/
structure Board where
  size : Nat
  data : List Tile
deriving DecidableEq, Repr

/-- The row-width check loop of `Board::new`: report the first row whose
width differs from the height (line numbers are 1-based). -/
def check_rows (height : Nat) : Nat → List (List Tile) → Except BoardError Unit
  | _, [] => .ok ()
  | index, row :: rest =>
    if row.length ≠ height then
      .error (.NotSquare height (index + 1) row.length)
    else
      check_rows height (index + 1) rest

/-- Source: `Board::new` from `board.rs`: reject fewer than 9 rows or a row whose
width differs from the height, then flatten the rows.  (The call to
`initialize_sequences` only populates the process-wide cache and is not
part of the returned value.) -/
def Board.new (data : List (List Tile)) : Except BoardError Board :=
  if data.length ≤ 8 then
    .error (.TooSmall data.length)
  else
    match check_rows data.length 0 data with
    | .error e => .error e
    | .ok _ => .ok ⟨data.length, data.flatten⟩

/-- Source: `Board::new_empty` from `board.rs`:
`vec![None; size.pow(2) as usize]` with no validation.  `size.pow(2)` is
computed in `u8`, so for `size ≥ 16` it overflows; the overflow panic of a
debug build is modelled as `none`. -/
def Board.new_empty (size : Nat) : Option Board :=
  if size * size ≤ 255 then
    some ⟨size, List.replicate (size * size) none⟩
  else
    none

/-- Source: `self.data[tile_idx]` for an index coming from a sequence; an
out-of-range read (impossible on well-formed boards) yields an empty
tile. -/
def Board.tile_at (b : Board) (idx : Nat) : Tile :=
  b.data.getD idx none

/-- The number of empty tiles on the board (`get_empty_tiles` succeeds
exactly when this is nonzero). -/
def Board.empty_tile_count (b : Board) : Nat :=
  b.data.countP (fun t => t.isNone)

/-! ### Line evaluation — `Board::evaluate_sequence` -/

/-- The mutable locals of the `evaluate_sequence` loop in `board.rs`,
together with the `Eval` accumulator. -/
structure WalkSt where
  current : Player
  consecutive : Nat
  open_ends : Nat
  has_hole : Bool
  eval : Eval
deriving DecidableEq, Repr

/-- Source: `eval.score[current] += shape_score; eval.win[current] |= is_win_shape`
from `evaluate_sequence`. -/
def add_shape (e : Eval) (p : Player) (sw : Score × Bool) : Eval :=
  ⟨e.score.set p (e.score.get p + sw.1), e.win.set p (e.win.get p || sw.2)⟩

/-- Close the current run: score it for `current` (one emission site of
`evaluate_sequence`). -/
def WalkSt.emit (st : WalkSt) : Eval :=
  add_shape st.eval st.current
    (shape_score st.consecutive st.open_ends st.has_hole)

/-- The loop of `Board::evaluate_sequence` from `board.rs`, recursing over
the remaining cell indices of the sequence.  The look-ahead
`sequence.get(i + 1).and_then(|&idx| self.data[idx])` becomes a peek at
the head of the remainder. -/
def eval_seq_go (b : Board) : List Nat → WalkSt → Eval
  | [], st =>
    -- consecutive tiles at the end of the sequence
    if st.consecutive > 0 then st.emit else st.eval
  | idx :: rest, st =>
    match b.tile_at idx with
    | some player =>
      if player = st.current then
        eval_seq_go b rest { st with consecutive := st.consecutive + 1 }
      else
        -- opponent's tile
        let st' :=
          if st.consecutive > 0 then
            { st with eval := st.emit, open_ends := 0, has_hole := false }
          else st
        eval_seq_go b rest { st' with consecutive := 1, current := player }
    | none =>
      -- empty tile
      if st.consecutive = 0 then
        eval_seq_go b rest { st with open_ends := 1, has_hole := false }
      else if !st.has_hole && st.consecutive < 5 &&
          (match rest with
           | next :: _ => decide (b.tile_at next = some st.current)
           | [] => false) then
        eval_seq_go b rest
          { st with has_hole := true, consecutive := st.consecutive + 1 }
      else
        let st' := { st with open_ends := st.open_ends + 1 }
        eval_seq_go b rest
          { st' with
              eval := st'.emit, consecutive := 0, open_ends := 1,
              has_hole := false }

/-- Source: `Board::evaluate_sequence` from `board.rs`: run the loop from the
initial state (`current = X`, everything else zeroed). -/
def Board.evaluate_sequence (b : Board) (sequence : List Nat) : Eval :=
  eval_seq_go b sequence ⟨Player.X, 0, 0, false, Eval.default⟩

/-- Source: `Board::evaluate` from `board.rs`: sum of the per-line evaluations
over all lines of the line index. -/
def Board.evaluate (b : Board) : Eval :=
  Eval.sum ((generate b.size).map (fun seq => b.evaluate_sequence seq))

/-- Source: `Board::evaluate_for` from `board.rs`. -/
def Board.evaluate_for (b : Board) (target : Player) : Score × State :=
  let e := b.evaluate
  (e.score.get target - e.score.get target.not,
   if e.win.get target then State.Win else State.NotEnd)

/-! ### Textual form — `impl fmt::Display for Board` and `FromStr` -/

/-- The literal `"abcdefghijklmnopqrstuvwxyz"` sliced in `Display`. -/
def alphabet : List Char :=
  ['a', 'b', 'c', 'd', 'e', 'f', 'g', 'h', 'i', 'j', 'k', 'l', 'm',
   'n', 'o', 'p', 'q', 'r', 's', 't', 'u', 'v', 'w', 'x', 'y', 'z']

/-- Source: `field.map_or('-', Player::char)` from `Display`. -/
def tile_char (t : Tile) : Char :=
  match t with
  | some p => p.char
  | none => '-'

/-- The decimal digits of a 1-based row number, as written by
`write!(f, "…{}", i + 1)`. -/
def nat_chars (n : Nat) : List Char :=
  Nat.toDigits 10 n

/-- Source: `impl fmt::Display for Board` from `board.rs`, producing the exact
character stream: a header line (one leading space, two when `size ≥ 10`,
then the first `size` lowercase letters), then one line per row (the
1-based row number padded to the header's column width, then the row's
tiles), each line terminated by `'\n'`. -/
def Board.render (b : Board) : List Char :=
  let indent : List Char := if 10 ≤ b.size then [' '] else []
  let header := indent ++ [' '] ++ alphabet.take b.size
  let rows := (List.range b.size).map (fun i =>
    (if i + 1 < 10 then indent else [])
      ++ nat_chars (i + 1)
      ++ ((b.data.drop (i * b.size)).take b.size).map tile_char)
  (header :: rows).foldr (fun line acc => line ++ '\n' :: acc) []

/-- Split a character stream at `'\n'` (keeping empty segments). -/
def split_nl : List Char → List (List Char)
  | [] => [[]]
  | c :: rest =>
    let r := split_nl rest
    if c = '\n' then [] :: r
    else
      match r with
      | [] => [[c]]
      | h :: t => (c :: h) :: t

/-- Rust's `str::lines()`: split at `'\n'`, the final line ending being
optional (a trailing empty segment is dropped). -/
def rust_lines (s : List Char) : List (List Char) :=
  let parts := split_nl s
  if parts.getLast? = some [] then parts.dropLast else parts

/-- The per-character tile parser of `Board::from_str`:
`'x' | 'X'` and `'o' | 'O'` are stones, everything else is empty. -/
def char_to_tile (c : Char) : Tile :=
  if c = 'x' ∨ c = 'X' then some Player.X
  else if c = 'o' ∨ c = 'O' then some Player.O
  else none

/-- Source: `Board::from_str` from `board.rs`: split the input into lines, parse
every character of every line as a tile, and hand the grid to
`Board::new`. -/
def Board.from_str (s : List Char) : Except BoardError Board :=
  Board.new ((rust_lines s).map (fun row => row.map char_to_tile))

/-! ### `TilePointer::try_from(&str)` — `board.rs` -/

/-- The error cases of `TilePointer::try_from`: the `"No input"` error for
an empty string, and a propagated `u8` parse error. -/
inductive TryFromError where
  | NoInput : TryFromError
  | ParseIntError : TryFromError
deriving DecidableEq, Repr

/-- Rust's `str::parse::<u8>()` on the remaining characters: an optional
leading `'+'`, then at least one ASCII digit, value at most 255;
`none` is the `Err` case (including overflow, which `parse` reports as an
error rather than panicking). -/
def parse_u8 (s : List Char) : Option Nat :=
  let digits := match s with
    | '+' :: rest => rest
    | _ => s
  if digits.isEmpty then none
  else if digits.all Char.isDigit then
    let v := digits.foldl (fun acc c => acc * 10 + (c.toNat - 48)) 0
    if v ≤ 255 then some v else none
  else none

/-- Source: `TilePointer::try_from(&str)` from `board.rs`.  The outer `Option` is
the panic model: `x as u8 - b'a'` underflows when the first character's
low byte is below `b'a' = 97`, and `y - 1` underflows when the parsed row
number is `0`; both subtractions overflow `u8` and a debug build panics
(`none`).  `char as u8` truncates to the low 8 bits. -/
def tilePointer_try_from (s : List Char) : Option (Except TryFromError TilePointer) :=
  match s with
  | [] => some (.error .NoInput)
  | c :: rest =>
    match parse_u8 rest with
    | none => some (.error .ParseIntError)
    | some y =>
      let xb := c.toNat % 256
      if xb < 97 then none
      else if y < 1 then none
      else some (.ok ⟨xb - 97, y - 1⟩)

/-! ## Search node — `node.rs` -/

/-- Source: `Node` from `node.rs`, restricted to the fields the verified
properties depend on.  The recursive `child_nodes` vector, the
`best_moves` cache and the concurrency handles (`end`, `threads`) are
owned by the search machinery and are not part of the ordering or of the
truncation being verified; children appear below as explicit
`List Node` values. -/
structure Node where
  tile : TilePointer
  player : Player
  state : State
  valid : Bool
  score : Score
  original_score : Score
  depth : Nat
deriving DecidableEq, Repr

/-- Source: `impl Ord for Node` from `node.rs` (lines 313–317):
`self.score.cmp(&other.score)` — the comparison reads only the score. -/
def Node.cmp (a b : Node) : Ordering :=
  compare a.score b.score

/-- The `limit` match in `Node::compute_next` from `node.rs`
(lines 106–113), evaluated after `self.depth` was incremented; depths 0
and 1 are `unreachable!()` there (`none`). -/
def node_limit (depth : Nat) : Option Nat :=
  match depth with
  | 0 | 1 => none
  | 2 | 3 => some 16
  | 4 | 5 => some 8
  | 6 | 7 => some 4
  | 8 | 9 => some 2
  | _ => some 1

/-- The truncation loop of `Node::compute_next`:
`while self.child_nodes.len() > limit { self.child_nodes.pop(); }` —
drop nodes from the back (the list is kept sorted score-descending by the
previous pass, so these are the worst) until at most `limit` remain. -/
def pop_to_limit (limit : Nat) (l : List Node) : List Node :=
  if l.length ≤ limit then l else pop_to_limit limit l.dropLast
termination_by l.length
decreasing_by
  simp only [List.length_dropLast]
  omega

/-! ## Search driver exit — `lib.rs` -/

/-- How `minimax_top_level` (src/gomoku/src/lib.rs, lines 31–171) can
exit: the single `?` on `board.get_empty_tiles()` (line 50) is its only
error return — `get_empty_tiles` fails exactly when the board has no
empty tile — and every other control path ends in `Ok((best_node.to_move(),
stats))`.  Thread scheduling and the deadline influence only which move is
returned, never this classification. -/
inductive DriverExit where
  | errNoEmptyTiles : DriverExit
  | okMove : DriverExit
deriving DecidableEq, Repr

/-- The exit classification of `minimax_top_level` as a function of the
board handed to it. -/
def minimax_exit (b : Board) : DriverExit :=
  if b.empty_tile_count = 0 then .errNoEmptyTiles else .okMove

/-! ## Spec-side definitions, for comparison with the source

The next definitions follow the words of the specification (not the
source); they exist only to be compared against the source-derived
definitions above. -/

/-- The k-th anti-diagonal as the spec's §4.1 words describe it:
`count = k if k ≤ N else 2N−k`, starting index `N−k` when `k ≤ N`, else
`(k−N)·N`, advancing by `step = N−1`. -/
def claim_anti_diagonal (size k : Nat) : List Nat :=
  let count := if k ≤ size then k else 2 * size - k
  let start := if k ≤ size then size - k else (k - size) * size
  (List.range count).map (fun i => start + i * (size - 1))

/-- The k-th main diagonal as the spec's §4.1 words describe it:
starting index `k−1` when `k ≤ N`, else `(k−N+1)·N − 1`, advancing by
`step = N+1`. -/
def claim_main_diagonal (size k : Nat) : List Nat :=
  let count := if k ≤ size then k else 2 * size - k
  let start := if k ≤ size then k - 1 else (k - size + 1) * size - 1
  (List.range count).map (fun i => start + i * (size + 1))

/-- The spec's §4.5 depth-indexed child budget `B(depth)`:
`B(2) = max(24, child_count / 2)`, `B(3) = 16`, `B(4..7) = 8`,
`B(8) = 4`, `B(≥9) = 2`. -/
def claim_budget (depth child_count : Nat) : Nat :=
  if depth = 2 then max 24 (child_count / 2)
  else if depth = 3 then 16
  else if depth ≤ 7 then 8
  else if depth = 8 then 4
  else 2

/-! ## Player swap (for the evaluation-symmetry property) -/

/-- Swap the stone on one tile: every X becomes O and every O becomes
X. -/
def swap_tile (t : Tile) : Tile :=
  t.map Player.not

/-- The board with all X and O stones exchanged. -/
def Board.swap (b : Board) : Board :=
  ⟨b.size, b.data.map swap_tile⟩

/-- Exchange the two players' components of an `EvalScore`. -/
def EvalScore.swap (s : EvalScore) : EvalScore :=
  ⟨s.o, s.x⟩

/-- Exchange the two players' components of an `EvalWin`. -/
def EvalWin.swap (w : EvalWin) : EvalWin :=
  ⟨w.o, w.x⟩

/-- Exchange the two players' components of an `Eval`. -/
def Eval.swap (e : Eval) : Eval :=
  ⟨e.score.swap, e.win.swap⟩

/-- The player swap applied to the walk state of `evaluate_sequence`. -/
def WalkSt.swap (st : WalkSt) : WalkSt :=
  ⟨st.current.not, st.consecutive, st.open_ends, st.has_hole, st.eval.swap⟩

/-! ## Concrete inputs used by the verification -/

/-- Decidable equality for `Except` results (needed to state concrete
facts about `Board::new` / `Board::from_str` outcomes). -/
instance {e a : Type} [DecidableEq e] [DecidableEq a] :
    DecidableEq (Except e a) := fun
  | .ok x, .ok y =>
    match decEq x y with
    | .isTrue h => .isTrue (by rw [h])
    | .isFalse h => .isFalse (by intro hh; cases hh; exact h rfl)
  | .error x, .error y =>
    match decEq x y with
    | .isTrue h => .isTrue (by rw [h])
    | .isFalse h => .isFalse (by intro hh; cases hh; exact h rfl)
  | .ok _, .error _ => .isFalse (by intro h; cases h)
  | .error _, .ok _ => .isFalse (by intro h; cases h)

/-- The empty 9×9 board (what `Board::new_empty(9)` builds). -/
def b9 : Board := ⟨9, List.replicate 81 none⟩

/-- The empty 15×15 board. -/
def b15 : Board := ⟨15, List.replicate 225 none⟩

/-- A 9×9 board whose first row starts with five O stones (`a1`–`e1`)
and that is otherwise empty: the position is already won by O, and X is
to move. -/
def bWon : Board := ⟨9, List.replicate 5 (some Player.O) ++ List.replicate 76 none⟩

/-- A plain search node (concrete values for the ordering and truncation
facts). -/
def node_plain : Node := ⟨⟨0, 0⟩, Player.X, State.NotEnd, true, 3, 3, 1⟩

/-- A node whose `state` is `Win` but whose `score` is low. -/
def node_win_low : Node := ⟨⟨1, 0⟩, Player.X, State.Win, true, 0, 0, 1⟩

/-- A node whose `state` is `Lose` but whose `score` is high. -/
def node_lose_high : Node := ⟨⟨2, 0⟩, Player.X, State.Lose, true, 50, 50, 1⟩

/-- A list of 48 children, as a node at depth 2 may well have. -/
def nodes48 : List Node := List.replicate 48 node_plain

/-! # Theorems -/

/-! ## C1 — the Display / from_str round-trip -/

/-- C1: the round-trip law `Board::from_str(b.to_string()) == Ok(b)`
fails on the code.  `Display` writes a header line and row-number
prefixes, but `from_str` parses every character of every line as a tile,
so for the empty 9×9 board the round trip yields a 10×10 board (header
and row-number characters become empty tiles), and for a 15×15 board it
fails with `NotSquare` (16 lines of width 17).  This confirms the bug
relative to the documented contract of `from_str` ("Expects the same
format, that is produced by `Board::to_string`"). -/
theorem c1_roundtrip_fails :
    b9.size = 9
    ∧ Board.from_str (Board.render b9) ≠ Except.ok b9
    ∧ (Board.from_str (Board.render b9)).toOption.map Board.size = some 10
    ∧ Board.from_str (Board.render b15)
        = Except.error (BoardError.NotSquare 16 1 17) := by
  decide

/-! ## C2 — the comparison order on `Node` -/

/-- C2 counterexample: `Ord for Node` compares scores only, so a node in
state `Win` with score 0 ranks strictly below a node in state `Lose`
with score 50 — the claim says every Win node ranks above every non-Win
node. -/
theorem c2_counterexample :
    node_win_low.state = State.Win
    ∧ node_lose_high.state ≠ State.Win
    ∧ Node.cmp node_win_low node_lose_high = Ordering.lt
    ∧ Node.cmp node_lose_high node_win_low = Ordering.gt := by
  decide

/-- C2 amended: the comparison order on `Node` is by `score` alone; the
`state` (and `valid`) fields play no role, for Win and non-Win nodes
alike. -/
theorem c2_order_by_score_only (a b : Node) (s t : State) (v w : Bool) :
    Node.cmp { a with state := s, valid := v } { b with state := t, valid := w }
      = compare a.score b.score :=
  rfl

/-! ## C3 — no GameEnd check in the driver -/

/-- C3 counterexample: on a board already won by O (five O stones
`a1`–`e1`) with X to move, the position is terminal for `!X = O`, yet
`minimax_top_level` does not fail: its only error exit is the
no-empty-tiles case, so it proceeds to choose a move (which `decide`
then places).  `GomokuError::GameEnd` is never returned. -/
theorem c3_counterexample :
    (bWon.evaluate_for (Player.not Player.X)).2 = State.Win
    ∧ 0 < bWon.empty_tile_count
    ∧ minimax_exit bWon = DriverExit.okMove := by
  decide

/-- C3 amended: `minimax_top_level` performs no terminal-position check;
whenever the board has at least one empty tile it exits with a chosen
move, even if the position is already won for either side. -/
theorem c3_no_game_end_check (b : Board) (p : Player)
    (_hterm : (b.evaluate_for p).2 = State.Win)
    (hempty : 0 < b.empty_tile_count) :
    minimax_exit b = DriverExit.okMove := by
  unfold minimax_exit
  rw [if_neg]
  omega

/-- Witness for C3 at the concrete already-won board. -/
theorem c3_no_game_end_check_witness : minimax_exit bWon = DriverExit.okMove :=
  c3_no_game_end_check bWon (Player.not Player.X) (by decide) (by decide)

/-! ## C4 — the shape-score table -/

/-- C4: `shape_score` equals the canonical table.  Without a hole:
`run ≥ 5` is the win sentinel for every open-end count; runs 4/3/2
score as tabulated; `run ≤ 1` scores 0.  With a hole: `run ≥ 5` with one
or two open ends scores 40,000; run 4 scores 500 / 20,000; `run ≤ 3`
scores 0; and no hole shape is a win. -/
theorem c4_shape_score_table :
    (∀ run open_ends, 5 ≤ run →
        shape_score run open_ends false = (100000000, true))
    ∧ shape_score 4 0 false = (0, false)
    ∧ shape_score 4 1 false = (100000, false)
    ∧ shape_score 4 2 false = (10000000, false)
    ∧ shape_score 3 0 false = (0, false)
    ∧ shape_score 3 1 false = (10000, false)
    ∧ shape_score 3 2 false = (5000000, false)
    ∧ shape_score 2 2 false = (2000, false)
    ∧ (∀ open_ends, open_ends ≠ 2 → shape_score 2 open_ends false = (0, false))
    ∧ (∀ run open_ends, run ≤ 1 → shape_score run open_ends false = (0, false))
    ∧ (∀ run open_ends, 5 ≤ run → 1 ≤ open_ends → open_ends ≤ 2 →
        shape_score run open_ends true = (40000, false))
    ∧ shape_score 4 1 true = (500, false)
    ∧ shape_score 4 2 true = (20000, false)
    ∧ (∀ run open_ends, run ≤ 3 → shape_score run open_ends true = (0, false))
    ∧ (∀ run open_ends, (shape_score run open_ends true).2 = false) := by
  refine ⟨?_, by decide, by decide, by decide, by decide, by decide, by decide,
    by decide, ?_, ?_, ?_, by decide, by decide, ?_, ?_⟩
  · intro run open_ends h
    simp [shape_score, h]
  · intro open_ends h
    simp [shape_score, h]
  · intro run open_ends h
    have h5 : ¬ 5 ≤ run := by omega
    have h4 : run ≠ 4 := by omega
    have h3 : run ≠ 3 := by omega
    have h2 : run ≠ 2 := by omega
    simp [shape_score, h5, h4, h3, h2]
  · intro run open_ends h5 _ _
    simp [shape_score, h5]
  · intro run open_ends h
    have h5 : ¬ 5 ≤ run := by omega
    have h4 : run ≠ 4 := by omega
    simp [shape_score, h5, h4]
  · intro run open_ends
    unfold shape_score
    rw [if_pos rfl]
    split_ifs <;> rfl

/-- Witness for C4, instantiating each quantified row of the table. -/
theorem c4_shape_score_table_witness :
    shape_score 7 0 false = (100000000, true)
    ∧ shape_score 2 5 false = (0, false)
    ∧ shape_score 1 2 false = (0, false)
    ∧ shape_score 6 2 true = (40000, false)
    ∧ shape_score 3 2 true = (0, false)
    ∧ (shape_score 9 1 true).2 = false := by
  obtain ⟨h1, _, _, _, _, _, _, _, h9, h10, h11, _, _, h14, h15⟩ :=
    c4_shape_score_table
  exact ⟨h1 7 0 (by norm_num), h9 5 (by norm_num), h10 1 2 (by norm_num),
    h11 6 2 (by norm_num) (by norm_num) (by norm_num),
    h14 3 2 (by norm_num), h15 9 1⟩

/-! ## C7 — the per-depth child truncation -/

/-- The truncation loop drops from the back, hence keeps the first
`limit` children. -/
theorem pop_to_limit_eq_take (limit : Nat) (l : List Node) :
    pop_to_limit limit l = l.take limit := by
  induction l using List.reverseRecOn with
  | nil =>
    rw [pop_to_limit]
    simp
  | append_singleton l' a ih =>
    rw [pop_to_limit]
    split
    · rename_i h
      exact (List.take_of_length_le h).symm
    · rename_i h
      rw [List.dropLast_concat, ih,
        List.take_append_of_le_length (by simp at h; omega)]

/-- C7 counterexample: at depth 2 with 48 children the code keeps 16
(`limit` is 16 for depths 2 and 3), while the claim's budget
`B(2) = max(24, 48 / 2) = 24` says 24 are kept. -/
theorem c7_counterexample :
    node_limit 2 = some 16
    ∧ (pop_to_limit 16 nodes48).length = 16
    ∧ min nodes48.length (claim_budget 2 nodes48.length) = 24 := by
  refine ⟨rfl, ?_, by decide⟩
  rw [pop_to_limit_eq_take]
  simp [nodes48]

/-- C7 amended: at depth `d ≥ 2` the children (kept sorted
score-descending by the previous pass) are truncated to the first
`limit(d)` entries, where `limit` is 16 for depths 2–3, 8 for 4–5, 4 for
6–7, 2 for 8–9 and 1 from depth 10 on. -/
theorem c7_truncation (d : Nat) (l : List Node) (hd : 2 ≤ d) :
    ∃ b, node_limit d = some b
      ∧ pop_to_limit b l = l.take b
      ∧ (pop_to_limit b l).length = min l.length b
      ∧ b = (if d ≤ 3 then 16 else if d ≤ 5 then 8
             else if d ≤ 7 then 4 else if d ≤ 9 then 2 else 1) := by
  have hb : node_limit d
      = some (if d ≤ 3 then 16 else if d ≤ 5 then 8
              else if d ≤ 7 then 4 else if d ≤ 9 then 2 else 1) := by
    rcases d with _ | _ | _ | _ | _ | _ | _ | _ | _ | _ | n
    · omega
    · omega
    · decide
    · decide
    · decide
    · decide
    · decide
    · decide
    · decide
    · decide
    · rw [if_neg (by omega), if_neg (by omega), if_neg (by omega),
        if_neg (by omega)]
      rfl
  refine ⟨_, hb, pop_to_limit_eq_take _ _, ?_, rfl⟩
  rw [pop_to_limit_eq_take, List.length_take, Nat.min_comm]

/-- Witness for C7 at depth 8 with the 48-node list. -/
theorem c7_truncation_witness :
    ∃ b, node_limit 8 = some b
      ∧ pop_to_limit b nodes48 = nodes48.take b
      ∧ (pop_to_limit b nodes48).length = min nodes48.length b
      ∧ b = (if 8 ≤ 3 then 16 else if 8 ≤ 5 then 8
             else if 8 ≤ 7 then 4 else if 8 ≤ 9 then 2 else 1) :=
  c7_truncation 8 nodes48 (by norm_num)

/-! ## C9 — panics in `TilePointer::try_from` -/

/-- C9 counterexample: `try_from` is not panic-free.  On `"a0"` the
parsed row number is 0 and `y - 1` underflows `u8`; on `"A1"` the first
character's byte is below `b'a'` and `x as u8 - b'a'` underflows.  A
build with debug assertions panics at these points (modelled `none`)
instead of returning a `Result`. -/
theorem c9_counterexample :
    tilePointer_try_from ['a', '0'] = none
    ∧ tilePointer_try_from ['A', '1'] = none := by
  decide

/-- C9 amended: `try_from` returns a `Result` for every input except
exactly those whose trailing characters parse as a `u8` row number while
the first character's low byte is below `b'a' = 97` or the row number is
0 — there the `u8` subtraction underflows and the function panics
(debug) instead. -/
theorem c9_panic_characterization (s : List Char) :
    tilePointer_try_from s = none ↔
      ∃ c rest y, s = c :: rest ∧ parse_u8 rest = some y ∧
        (c.toNat % 256 < 97 ∨ y = 0) := by
  cases s with
  | nil =>
    simp [tilePointer_try_from]
  | cons c rest =>
    simp only [tilePointer_try_from]
    cases hp : parse_u8 rest with
    | none =>
      constructor
      · intro h
        simp at h
      · rintro ⟨c', rest', y, heq, hp', -⟩
        injection heq with h1 h2
        subst h1
        subst h2
        rw [hp] at hp'
        cases hp'
    | some y =>
      dsimp only
      by_cases h1 : c.toNat % 256 < 97
      · rw [if_pos h1]
        constructor
        · intro _
          exact ⟨c, rest, y, rfl, hp, Or.inl h1⟩
        · intro _
          rfl
      · rw [if_neg h1]
        by_cases h2 : y < 1
        · rw [if_pos h2]
          constructor
          · intro _
            exact ⟨c, rest, y, rfl, hp, Or.inr (by omega)⟩
          · intro _
            rfl
        · rw [if_neg h2]
          constructor
          · intro h
            simp at h
          · rintro ⟨c', rest', y', heq, hp', hbad⟩
            injection heq with hc hr
            subst hc
            subst hr
            rw [hp] at hp'
            injection hp' with hy
            subst hy
            rcases hbad with hbad | hbad
            · exact absurd hbad h1
            · omega

/-! ## C10 — `Board::new_empty` -/

/-- C10 counterexample: `new_empty` does not succeed for every size —
`size.pow(2)` is computed in `u8`, so `new_empty(16)` overflows (256 >
255) and a debug build panics. -/
theorem c10_counterexample : Board.new_empty 16 = none := by
  decide

/-- C10 amended: for every size up to 15 (where the `u8` squaring cannot
overflow) `new_empty` succeeds with `size²` empty tiles and no
validation whatsoever — in particular for every size below the 9×9
minimum that `Board::new` enforces with its `TooSmall` error. -/
theorem c10_new_empty_no_validation (size : Nat) (hs : size ≤ 15) :
    Board.new_empty size = some ⟨size, List.replicate (size * size) none⟩
    ∧ (size ≤ 8 →
        Board.new (List.replicate size (List.replicate size (none : Tile)))
          = Except.error (BoardError.TooSmall size)) := by
  constructor
  · unfold Board.new_empty
    rw [if_pos]
    calc size * size ≤ 15 * 15 := Nat.mul_le_mul hs hs
      _ ≤ 255 := by norm_num
  · intro h8
    unfold Board.new
    rw [if_pos (by simpa using h8)]
    simp
/-! ## C5 — the diagonal construction -/

/-- C5 counterexample: the claim pairs the anti-diagonals with the start
formula `N−k` / `(k−N)·N`, but the first anti-diagonal produced by
`generate(9)` (the line at position `2N = 18`, right after the rows and
columns) is `[0]` — the top-left corner — i.e. it starts at `k−1 = 0`,
not at `N−k = 8` as the claim's formula predicts. -/
theorem c5_counterexample :
    (generate 9)[18]? = some (make_diagonal 9 1 DiagonalDir.RightToLeft)
    ∧ make_diagonal 9 1 DiagonalDir.RightToLeft = [0]
    ∧ claim_anti_diagonal 9 1 = [8]
    ∧ ([0] : List Nat) ≠ [8] := by
  decide

/-- C5 amended: the k-th anti-diagonal (the `RightToLeft` group, stored
at positions `2N + (k−1)` of `generate`) has count `k` if `k ≤ N` else
`2N−k`, starts at `k−1` when `k ≤ N` and at `(k−N+1)·N − 1` otherwise,
and advances by `N−1`; the k-th main diagonal (the `LeftToRight` group,
at positions `(4N−1) + (k−1)`) starts at `N−k` when `k ≤ N` and at
`(k−N)·N` otherwise, and advances by `N+1`.  (The claim swapped the two
start formulas.) -/
theorem c5_diagonal_formulas (N k : Nat) (hN : 1 ≤ N) (hk1 : 1 ≤ k)
    (hk2 : k ≤ 2 * N - 1) :
    (generate N)[2 * N + (k - 1)]? = some (make_diagonal N k DiagonalDir.RightToLeft)
    ∧ (generate N)[(4 * N - 1) + (k - 1)]?
        = some (make_diagonal N k DiagonalDir.LeftToRight)
    ∧ make_diagonal N k DiagonalDir.RightToLeft
        = (List.range (if k ≤ N then k else 2 * N - k)).map
            (fun i => (if k ≤ N then k - 1 else (k - N + 1) * N - 1) + i * (N - 1))
    ∧ make_diagonal N k DiagonalDir.LeftToRight
        = (List.range (if k ≤ N then k else 2 * N - k)).map
            (fun i => (if k ≤ N then N - k else (k - N) * N) + i * (N + 1)) := by
  have hlen : ∀ dir : DiagonalDir,
      ((List.range (2 * N - 1)).map
        (fun j => make_diagonal N (j + 1) dir)).length = 2 * N - 1 := by
    intro dir
    simp
  have hrowcols :
      (((List.range N).map (fun y => make_row N y))
        ++ ((List.range N).map (fun x => make_col N x))).length = 2 * N := by
    simp
    omega
  refine ⟨?_, ?_, ?_, ?_⟩
  · unfold generate
    rw [List.append_assoc, List.getElem?_append_right (by rw [hrowcols]; omega),
      hrowcols, List.getElem?_append_left (by rw [hlen]; omega),
      Nat.add_sub_cancel_left, List.getElem?_map,
      List.getElem?_range (by omega)]
    simp only [Option.map_some']
    congr 2
    omega
  · unfold generate
    rw [List.append_assoc, List.getElem?_append_right (by rw [hrowcols]; omega),
      hrowcols, List.getElem?_append_right (by rw [hlen]; omega), hlen,
      List.getElem?_map, List.getElem?_range (by omega)]
    · simp only [Option.map_some']
      congr 2
      omega
  · by_cases hkN : k ≤ N
    · simp [make_diagonal, DiagonalDir.step, hkN]
    · simp [make_diagonal, DiagonalDir.step, hkN]
  · by_cases hkN : k ≤ N
    · simp [make_diagonal, DiagonalDir.step, hkN]
    · simp [make_diagonal, DiagonalDir.step, hkN]

/-- Witness for C5 at `N = 9`, `k = 12` (the below-the-main-corner
branch). -/
theorem c5_diagonal_formulas_witness :
    (generate 9)[18 + 11]? = some (make_diagonal 9 12 DiagonalDir.RightToLeft)
    ∧ (generate 9)[35 + 11]? = some (make_diagonal 9 12 DiagonalDir.LeftToRight)
    ∧ make_diagonal 9 12 DiagonalDir.RightToLeft
        = (List.range (2 * 9 - 12)).map (fun i => (12 - 9 + 1) * 9 - 1 + i * (9 - 1))
    ∧ make_diagonal 9 12 DiagonalDir.LeftToRight
        = (List.range (2 * 9 - 12)).map (fun i => (12 - 9) * 9 + i * (9 + 1)) := by
  obtain ⟨h1, h2, h3, h4⟩ :=
    c5_diagonal_formulas 9 12 (by norm_num) (by norm_num) (by norm_num)
  refine ⟨h1, h2, ?_, ?_⟩
  · rw [h3]
    norm_num
  · rw [h4]
    norm_num

/-! ## C6 — every cell lies on exactly four lines -/

/-- A counting principle: over `range n`, a predicate that holds exactly
at one point `y0 < n` is counted once. -/
theorem countP_range_eq_one {q : Nat → Bool} :
    ∀ n y0 : Nat, y0 < n → (∀ y, y < n → (q y = true ↔ y = y0)) →
      (List.range n).countP q = 1 := by
  intro n
  induction n with
  | zero =>
    intro y0 h0 _
    omega
  | succ m ih =>
    intro y0 h0 hq
    rw [List.range_succ, List.countP_append, List.countP_singleton]
    by_cases hy : y0 = m
    · have hz : (List.range m).countP q = 0 := by
        rw [List.countP_eq_zero]
        intro a ha
        rw [List.mem_range] at ha
        intro hqa
        have := (hq a (by omega)).mp hqa
        omega
      have hqm : q m = true := (hq m (by omega)).mpr hy.symm
      rw [hz, hqm]
      rfl
    · have hqm : q m = false := by
        cases hqm : q m with
        | false => rfl
        | true => exact absurd ((hq m (by omega)).mp hqm) (fun h => hy h.symm)
      rw [ih y0 (by omega) (fun y hy2 => hq y (by omega)), hqm]
      rfl

/-- Uniqueness of the base-`N` decomposition of a cell index. -/
theorem index_decomp {N x y i : Nat} (hx : x < N) :
    i = x + y * N ↔ i % N = x ∧ i / N = y := by
  have hN : 0 < N := by omega
  constructor
  · rintro rfl
    refine ⟨?_, ?_⟩
    · rw [Nat.add_mul_mod_self_right, Nat.mod_eq_of_lt hx]
    · rw [Nat.add_mul_div_right _ _ hN, Nat.div_eq_of_lt hx, Nat.zero_add]
  · rintro ⟨h1, h2⟩
    subst h1
    subst h2
    exact (Nat.mod_add_div' i N).symm

/-- Membership in a row: `i` lies on `make_row N y` exactly when its row
index is `y`. -/
theorem mem_make_row {N y i : Nat} (hN : 0 < N) :
    i ∈ make_row N y ↔ i / N = y := by
  unfold make_row
  simp only [List.mem_map, List.mem_range]
  constructor
  · rintro ⟨x, hx, rfl⟩
    exact ((index_decomp hx).mp rfl).2
  · intro h
    exact ⟨i % N, Nat.mod_lt _ hN,
      ((index_decomp (Nat.mod_lt i hN)).mpr ⟨rfl, h⟩).symm⟩

/-- Membership in a column: for `x < N` and `i < N²`, `i` lies on
`make_col N x` exactly when its column index is `x`. -/
theorem mem_make_col {N x i : Nat} (hx : x < N) (hi : i < N * N) :
    i ∈ make_col N x ↔ i % N = x := by
  unfold make_col
  simp only [List.mem_map, List.mem_range]
  constructor
  · rintro ⟨y, hy, rfl⟩
    exact ((index_decomp hx).mp rfl).1
  · intro h
    exact ⟨i / N, (Nat.div_lt_iff_lt_mul (by omega)).mpr hi,
      ((index_decomp hx).mpr ⟨h, rfl⟩).symm⟩

/-- Membership in a right-to-left (anti-) diagonal: for `1 ≤ k ≤ 2N−1`
and `i < N²`, `i` lies on the k-th anti-diagonal exactly when
`x + y = k − 1`. -/
theorem mem_make_diagonal_rl {N k i : Nat} (hN : 0 < N) (hk1 : 1 ≤ k)
    (_hk2 : k ≤ 2 * N - 1) (hi : i < N * N) :
    i ∈ make_diagonal N k DiagonalDir.RightToLeft ↔ i % N + i / N = k - 1 := by
  have hxN : i % N < N := Nat.mod_lt _ hN
  have hyN : i / N < N := (Nat.div_lt_iff_lt_mul hN).mpr hi
  have hrepr : i % N + (i / N) * N = i := Nat.mod_add_div' i N
  simp only [make_diagonal, DiagonalDir.step, List.mem_map, List.mem_range]
  by_cases hkN : k ≤ N
  · rw [if_pos hkN, if_pos hkN]
    constructor
    · rintro ⟨t, ht, rfl⟩
      have hb : t * (N - 1) + t * 1 = t * N := by
        rw [← Nat.mul_add]
        congr 1
        omega
      have hx : k - 1 - t < N := by omega
      have heq : (k - 1) + t * (N - 1) = (k - 1 - t) + t * N := by omega
      rw [heq]
      have hd := (index_decomp (y := t) hx).mp rfl
      rw [hd.1, hd.2]
      omega
    · intro hsum
      refine ⟨i / N, by omega, ?_⟩
      have hb : (i / N) * (N - 1) + (i / N) * 1 = (i / N) * N := by
        rw [← Nat.mul_add]
        congr 1
        omega
      omega
  · rw [if_neg hkN, if_neg hkN]
    constructor
    · rintro ⟨t, ht, rfl⟩
      have hb1 : t * (N - 1) + t * 1 = t * N := by
        rw [← Nat.mul_add]
        congr 1
        omega
      have hb2 : (k - N + 1) * N = (k - N) * N + 1 * N := by
        rw [← Nat.add_mul]
      have hb3 : (k - N + t) * N = (k - N) * N + t * N := by
        rw [← Nat.add_mul]
      have hx : N - 1 - t < N := by omega
      have heq : ((k - N + 1) * N - 1) + t * (N - 1)
          = (N - 1 - t) + (k - N + t) * N := by omega
      rw [heq]
      have hd := (index_decomp (y := k - N + t) hx).mp rfl
      rw [hd.1, hd.2]
      omega
    · intro hsum
      have hyk : k - N ≤ i / N := by omega
      refine ⟨i / N - (k - N), by omega, ?_⟩
      have hb1 : (i / N - (k - N)) * (N - 1) + (i / N - (k - N)) * 1
          = (i / N - (k - N)) * N := by
        rw [← Nat.mul_add]
        congr 1
        omega
      have hb2 : (i / N - (k - N)) * N + (k - N) * N = (i / N) * N := by
        rw [← Nat.add_mul]
        congr 1
        omega
      have hb3 : (k - N + 1) * N = (k - N) * N + 1 * N := by
        rw [← Nat.add_mul]
      omega

/-- Membership in a left-to-right (main) diagonal: for `1 ≤ k ≤ 2N−1`
and `i < N²`, `i` lies on the k-th main diagonal exactly when
`x + k = N + y`. -/
theorem mem_make_diagonal_lr {N k i : Nat} (hN : 0 < N) (_hk1 : 1 ≤ k)
    (_hk2 : k ≤ 2 * N - 1) (hi : i < N * N) :
    i ∈ make_diagonal N k DiagonalDir.LeftToRight ↔ i % N + k = N + i / N := by
  have hxN : i % N < N := Nat.mod_lt _ hN
  have hyN : i / N < N := (Nat.div_lt_iff_lt_mul hN).mpr hi
  have hrepr : i % N + (i / N) * N = i := Nat.mod_add_div' i N
  simp only [make_diagonal, DiagonalDir.step, List.mem_map, List.mem_range]
  by_cases hkN : k ≤ N
  · rw [if_pos hkN, if_pos hkN]
    constructor
    · rintro ⟨t, ht, rfl⟩
      have hb : t * (N + 1) = t * N + t * 1 := by
        rw [← Nat.mul_add]
      have hx : N - k + t < N := by omega
      have heq : (N - k) + t * (N + 1) = (N - k + t) + t * N := by omega
      rw [heq]
      have hd := (index_decomp (y := t) hx).mp rfl
      rw [hd.1, hd.2]
      omega
    · intro hsum
      refine ⟨i / N, by omega, ?_⟩
      have hb : (i / N) * (N + 1) = (i / N) * N + (i / N) * 1 := by
        rw [← Nat.mul_add]
      omega
  · rw [if_neg hkN, if_neg hkN]
    constructor
    · rintro ⟨t, ht, rfl⟩
      have hb1 : t * (N + 1) = t * N + t * 1 := by
        rw [← Nat.mul_add]
      have hb2 : (k - N + t) * N = (k - N) * N + t * N := by
        rw [← Nat.add_mul]
      have hx : t < N := by omega
      have heq : (k - N) * N + t * (N + 1) = t + (k - N + t) * N := by omega
      rw [heq]
      have hd := (index_decomp (y := k - N + t) hx).mp rfl
      rw [hd.1, hd.2]
      omega
    · intro hsum
      refine ⟨i % N, by omega, ?_⟩
      have hb1 : (i % N) * (N + 1) = (i % N) * N + (i % N) * 1 := by
        rw [← Nat.mul_add]
      have hb2 : (i / N) * N = (i % N) * N + (k - N) * N := by
        have hdiv : i / N = i % N + (k - N) := by omega
        rw [hdiv, Nat.add_mul]
      omega

/-- C6: for every board size `N ≥ 9` and every cell index `i < N²`,
exactly four of the `6N−2` lines of `generate N` contain `i` — the
cell's row, its column, and its two diagonals. -/
theorem c6_line_coverage (N : Nat) (hN9 : 9 ≤ N) (i : Nat) (hi : i < N * N) :
    (generate N).countP (fun l => decide (i ∈ l)) = 4 := by
  have hN : 0 < N := by omega
  have hxN : i % N < N := Nat.mod_lt _ hN
  have hyN : i / N < N := (Nat.div_lt_iff_lt_mul hN).mpr hi
  have hrows : ((List.range N).map (fun y => make_row N y)).countP
      (fun l => decide (i ∈ l)) = 1 := by
    rw [List.countP_map]
    refine countP_range_eq_one N (i / N) hyN ?_
    intro y hy
    simp only [Function.comp_apply, decide_eq_true_eq]
    rw [mem_make_row hN]
    exact eq_comm
  have hcols : ((List.range N).map (fun x => make_col N x)).countP
      (fun l => decide (i ∈ l)) = 1 := by
    rw [List.countP_map]
    refine countP_range_eq_one N (i % N) hxN ?_
    intro x hx
    simp only [Function.comp_apply, decide_eq_true_eq]
    rw [mem_make_col hx hi]
    exact eq_comm
  have hrl : ((List.range (2 * N - 1)).map
      (fun j => make_diagonal N (j + 1) DiagonalDir.RightToLeft)).countP
      (fun l => decide (i ∈ l)) = 1 := by
    rw [List.countP_map]
    refine countP_range_eq_one (2 * N - 1) (i % N + i / N) (by omega) ?_
    intro j hj
    simp only [Function.comp_apply, decide_eq_true_eq]
    rw [mem_make_diagonal_rl hN (by omega) (by omega) hi]
    omega
  have hlr : ((List.range (2 * N - 1)).map
      (fun j => make_diagonal N (j + 1) DiagonalDir.LeftToRight)).countP
      (fun l => decide (i ∈ l)) = 1 := by
    rw [List.countP_map]
    have hy0 : N + i / N - (i % N) - 1 < 2 * N - 1 := by
      revert hxN hyN
      generalize i % N = x
      generalize i / N = y
      intro h1 h2
      omega
    refine countP_range_eq_one (2 * N - 1) (N + i / N - (i % N) - 1) hy0 ?_
    intro j hj
    simp only [Function.comp_apply, decide_eq_true_eq]
    rw [mem_make_diagonal_lr hN (by omega) (by omega) hi]
    revert hxN hyN
    generalize i % N = x
    generalize i / N = y
    intro h1 h2
    omega
  unfold generate
  rw [List.countP_append, List.countP_append, List.countP_append,
    hrows, hcols, hrl, hlr]

/-- Witness for C6: the centre cell of the 9×9 board lies on exactly
four lines. -/
theorem c6_line_coverage_witness :
    (generate 9).countP (fun l => decide (40 ∈ l)) = 4 :=
  c6_line_coverage 9 (by norm_num) 40 (by norm_num)

/-! ## C8 — evaluation symmetry under swapping the players -/

@[simp]
theorem WalkSt.swap_current (st : WalkSt) :
    (WalkSt.swap st).current = st.current.not := rfl

@[simp]
theorem WalkSt.swap_consecutive (st : WalkSt) :
    (WalkSt.swap st).consecutive = st.consecutive := rfl

@[simp]
theorem WalkSt.swap_open_ends (st : WalkSt) :
    (WalkSt.swap st).open_ends = st.open_ends := rfl

@[simp]
theorem WalkSt.swap_has_hole (st : WalkSt) :
    (WalkSt.swap st).has_hole = st.has_hole := rfl

@[simp]
theorem WalkSt.swap_eval (st : WalkSt) :
    (WalkSt.swap st).eval = st.eval.swap := rfl

@[simp]
theorem Player.not_inj {p q : Player} : p.not = q.not ↔ p = q := by
  cases p <;> cases q <;> simp [Player.not]

/-- Reading a tile of the swapped board swaps the tile read. -/
@[simp]
theorem swap_tile_at (b : Board) (idx : Nat) :
    (Board.swap b).tile_at idx = swap_tile (b.tile_at idx) := by
  simp only [Board.tile_at, Board.swap, List.getD_eq_getElem?_getD,
    List.getElem?_map]
  cases b.data[idx]? with
  | none => rfl
  | some t => rfl

@[simp]
theorem map_not_eq_some_not (t : Tile) (p : Player) :
    Option.map Player.not t = some (Player.not p) ↔ t = some p := by
  cases t with
  | none => simp
  | some q => simp

/-- Scoring a shape for the swapped player in the swapped accumulator is
the swap of scoring it for the player. -/
theorem add_shape_swap (e : Eval) (p : Player) (sw : Score × Bool) :
    add_shape (Eval.swap e) (Player.not p) sw = Eval.swap (add_shape e p sw) := by
  cases p <;> rfl

/-- Closing the current run commutes with the player swap. -/
@[simp]
theorem emit_swap (st : WalkSt) :
    (WalkSt.swap st).emit = Eval.swap st.emit :=
  add_shape_swap st.eval st.current _

/-- Source: `emit_swap` stated on an explicit constructor state. -/
theorem emit_swap_mk (cur : Player) (cons oe : Nat) (hh : Bool) (ev : Eval) :
    WalkSt.emit ⟨Player.not cur, cons, oe, hh, Eval.swap ev⟩
      = Eval.swap (WalkSt.emit ⟨cur, cons, oe, hh, ev⟩) :=
  add_shape_swap ev cur _

/-- While no run is open (`consecutive = 0`), the `current` register of
the `evaluate_sequence` walk is inert: the first occupied cell overwrites
it. -/
theorem eval_seq_go_current_irrelevant (b : Board) :
    ∀ (seq : List Nat) (st : WalkSt) (c : Player), st.consecutive = 0 →
      eval_seq_go b seq { st with current := c } = eval_seq_go b seq st := by
  intro seq
  induction seq with
  | nil =>
    intro st c h0
    simp [eval_seq_go, h0]
  | cons idx rest ih =>
    rintro ⟨cur, cons, oe, hh, ev⟩ c h0
    simp only at h0
    subst h0
    simp only [eval_seq_go]
    cases htile : b.tile_at idx with
    | some p =>
      dsimp only
      by_cases hc : p = c <;> by_cases hc2 : p = cur
      · rw [if_pos hc, if_pos hc2]
        subst hc
        subst hc2
        rfl
      · rw [if_pos hc, if_neg hc2]
        subst hc
        rfl
      · rw [if_neg hc, if_pos hc2]
        subst hc2
        rfl
      · rw [if_neg hc, if_neg hc2]
        rfl
    | none =>
      dsimp only
      rw [if_pos trivial, if_pos trivial]
      exact ih ⟨cur, 0, 1, false, ev⟩ c rfl

/-- The walk of `evaluate_sequence` is equivariant under the player
swap: running it on the swapped board from the swapped state yields the
swapped evaluation. -/
theorem eval_seq_go_swap (b : Board) :
    ∀ (seq : List Nat) (st : WalkSt),
      eval_seq_go (Board.swap b) seq (WalkSt.swap st)
        = Eval.swap (eval_seq_go b seq st) := by
  intro seq
  induction seq with
  | nil =>
    intro st
    by_cases h0 : st.consecutive > 0 <;> simp [eval_seq_go, h0]
  | cons idx rest ih =>
    rintro ⟨cur, cons, oe, hh, ev⟩
    show eval_seq_go (Board.swap b) (idx :: rest)
        ⟨Player.not cur, cons, oe, hh, Eval.swap ev⟩ = _
    simp only [eval_seq_go, swap_tile_at]
    cases htile : b.tile_at idx with
    | some p =>
      simp only [swap_tile, Option.map_some']
      by_cases hc : p = cur
      · rw [if_pos (by rw [hc]), if_pos hc]
        exact ih ⟨cur, cons + 1, oe, hh, ev⟩
      · rw [if_neg (by simpa using hc), if_neg hc]
        by_cases h0 : cons > 0
        · rw [if_pos h0, if_pos h0, emit_swap_mk]
          exact ih ⟨p, 1, 0, false, WalkSt.emit ⟨cur, cons, oe, hh, ev⟩⟩
        · rw [if_neg h0, if_neg h0]
          exact ih ⟨p, 1, oe, hh, ev⟩
    | none =>
      simp only [swap_tile, Option.map_none']
      dsimp only
      by_cases h0 : cons = 0
      · rw [if_pos h0, if_pos h0]
        exact ih ⟨cur, cons, 1, false, ev⟩
      · rw [if_neg h0, if_neg h0]
        cases rest with
        | nil =>
          dsimp only
          rw [if_neg (by simp), if_neg (by simp), emit_swap_mk]
          exact ih ⟨cur, 0, 1, false, WalkSt.emit ⟨cur, cons, oe + 1, hh, ev⟩⟩
        | cons next r =>
          dsimp only
          simp only [map_not_eq_some_not]
          by_cases hcnd :
              (!hh && decide (cons < 5) && decide (b.tile_at next = some cur))
                = true
          · rw [if_pos hcnd, if_pos hcnd]
            exact ih ⟨cur, cons + 1, oe, true, ev⟩
          · rw [if_neg hcnd, if_neg hcnd, emit_swap_mk]
            exact ih ⟨cur, 0, 1, false, WalkSt.emit ⟨cur, cons, oe + 1, hh, ev⟩⟩

/-- Source: `evaluate_sequence` on the swapped board yields the swapped
evaluation (the fixed initial `current = X` is inert because the walk
starts with `consecutive = 0`). -/
theorem evaluate_sequence_swap (b : Board) (seq : List Nat) :
    (Board.swap b).evaluate_sequence seq = Eval.swap (b.evaluate_sequence seq) := by
  unfold Board.evaluate_sequence
  calc eval_seq_go (Board.swap b) seq ⟨Player.X, 0, 0, false, Eval.default⟩
      = eval_seq_go (Board.swap b) seq
          { (⟨Player.O, 0, 0, false, Eval.default⟩ : WalkSt) with
              current := Player.X } := rfl
    _ = eval_seq_go (Board.swap b) seq ⟨Player.O, 0, 0, false, Eval.default⟩ :=
        eval_seq_go_current_irrelevant _ seq _ Player.X rfl
    _ = eval_seq_go (Board.swap b) seq
          (WalkSt.swap ⟨Player.X, 0, 0, false, Eval.default⟩) := rfl
    _ = Eval.swap (eval_seq_go b seq ⟨Player.X, 0, 0, false, Eval.default⟩) :=
        eval_seq_go_swap b seq _

/-- Summation of evaluations commutes with the player swap. -/
theorem eval_sum_swap (l : List Eval) :
    Eval.sum (l.map Eval.swap) = Eval.swap (Eval.sum l) := by
  unfold Eval.sum
  have aux : ∀ (l : List Eval) (acc : Eval),
      (l.map Eval.swap).foldl Eval.add (Eval.swap acc)
        = Eval.swap (l.foldl Eval.add acc) := by
    intro l
    induction l with
    | nil =>
      intro acc
      rfl
    | cons a t ih =>
      intro acc
      simp only [List.map_cons, List.foldl_cons]
      rw [show Eval.add (Eval.swap acc) (Eval.swap a)
          = Eval.swap (Eval.add acc a) from rfl]
      exact ih _
  exact aux l Eval.default

/-- Source: `Board::evaluate` of the swapped board is the swapped evaluation. -/
theorem evaluate_swap (b : Board) :
    (Board.swap b).evaluate = Eval.swap b.evaluate := by
  unfold Board.evaluate
  rw [show (Board.swap b).size = b.size from rfl]
  rw [List.map_congr_left (fun seq _ => evaluate_sequence_swap b seq),
    show (fun seq => Eval.swap (b.evaluate_sequence seq))
      = Eval.swap ∘ (fun seq => b.evaluate_sequence seq) from rfl,
    ← List.map_map]
  exact eval_sum_swap _

/-- C8: swapping every X stone with O and every O stone with X negates
the score component of `evaluate_for`, for either fixed player
perspective. -/
theorem c8_eval_symmetry (b : Board) (p : Player) :
    (Board.evaluate_for (Board.swap b) p).1 = -((Board.evaluate_for b p).1) := by
  unfold Board.evaluate_for
  rw [evaluate_swap]
  cases p <;>
    simp [Eval.swap, EvalScore.swap, EvalScore.get, Player.not]

/-- Witness for C10 at size 5 (below the documented 9×9 minimum). -/
theorem c10_new_empty_witness :
    Board.new_empty 5 = some ⟨5, List.replicate 25 none⟩
    ∧ Board.new (List.replicate 5 (List.replicate 5 (none : Tile)))
        = Except.error (BoardError.TooSmall 5) := by
  obtain ⟨h1, h2⟩ := c10_new_empty_no_validation 5 (by norm_num)
  exact ⟨h1, h2 (by norm_num)⟩

end Gomoku
